import Mathlib

/-!
Verification of the relay-pool orchestrator (`nostr-relay-pool/src/pool/inner.rs`).

The development shallowly embeds `InnerRelayPool` and its operations:
the relay registry (a `HashMap<RelayUrl, Relay>`, modelled as an association
list with string keys), the subscription registry, the atomic shutdown flag,
the broadcast notification channel (modelled as an append-only log of emitted
notifications), and the fan-out operations `batch_msg_to`, `send_event_to`,
`subscribe_targeted`, `sync_targeted`, the streaming deduplication of
`stream_events_targeted`, and `try_connect`.

External collaborators (the per-relay `RelayClient` and the `EventStore`
database) are black boxes in the source; they are modelled as oracles: each
relay carries the result that each of its operations returns for the call
under consideration, and the database is a function from events to results.
-/

namespace NostrPool

deriving instance DecidableEq for Except

/-- Normalized relay URL; equality is byte-exact after normalization. -/
abbrev RelayUrl := String

abbrev EventId := Nat

abbrev SubscriptionId := String

/-- Declarative event selector; its internal structure is irrelevant here. -/
abbrev Filter := Nat

abbrev Timestamp := Nat

/-- A signed event; only the id matters for the pool logic. -/
structure Event where
  id : EventId
  content : String
deriving DecidableEq, Repr

/-- Service flags bitset of a relay (`RelayServiceFlags`). -/
structure ServiceFlags where
  read : Bool
  write : Bool
  ping : Bool
  gossip : Bool
  discovery : Bool
deriving DecidableEq, Repr

/-- Clearing of `READ | WRITE | DISCOVERY` as done by `flags.remove(...)`
in `internal_remove_relay`. -/
def ServiceFlags.clearRWD (f : ServiceFlags) : ServiceFlags :=
  { f with read := false, write := false, discovery := false }

/-- Modelled from the spec: the `Reconciliation` summary returned by a
relay's `sync_multi` (the type lives outside the provided sources); only
the parts needed to type the sync fan-out are kept. -/
structure Reconciliation where
  sent : List EventId
  received : List EventId
deriving DecidableEq, Repr

/-- Modelled from the spec: merging reconciliations unions their
`sent` / `received` sets (`Output::merge`, outside the provided sources). -/
def Reconciliation.merge (a b : Reconciliation) : Reconciliation :=
  { sent := a.sent ++ b.sent.filter (fun x => !a.sent.contains x),
    received := a.received ++ b.received.filter (fun x => !a.received.contains x) }

/-- Modelled from the spec: a `RelayClient` handle (external contract of §6).
Each fallible operation is an oracle recording the result the relay returns
for the single call the pool issues to it; `subs` is the relay-local
subscription state and `netSubMsgs` counts network-level subscription
messages the relay has issued (`update_subscription` with `send = false`
is local-only and issues none). -/
structure Relay where
  url : RelayUrl
  flags : ServiceFlags
  canConnect : Bool
  sendEventR : Except String EventId
  batchMsgR : Except String Unit
  subscribeR : Except String Unit
  syncR : Except String Reconciliation
  tryConnectR : Except String Unit
  disconnectR : Except String Unit
  setNotificationSenderR : Except String Unit
  subs : List (SubscriptionId × List Filter)
  netSubMsgs : Nat
deriving DecidableEq, Repr

/- ### Association-list operations standing for `HashMap` -/

/-- Lookup in an association list (`HashMap::get`). -/
def lookupA {β : Type} : List (String × β) → String → Option β
  | [], _ => none
  | p :: t, k => if p.1 = k then some p.2 else lookupA t k

/-- Key removal (`HashMap::remove`); removes every binding of the key,
which coincides with the map behaviour on the unique-key lists the pool
maintains. -/
def eraseA {β : Type} : List (String × β) → String → List (String × β)
  | [], _ => []
  | p :: t, k => if p.1 = k then eraseA t k else p :: eraseA t k

/-- Insert-or-replace (`HashMap::insert`). -/
def insertA {β : Type} (m : List (String × β)) (k : String) (v : β) :
    List (String × β) :=
  (k, v) :: eraseA m k

/-- Membership test (`HashMap::contains_key`). -/
def containsA {β : Type} (m : List (String × β)) (k : String) : Bool :=
  (lookupA m k).isSome

/-- Key list of a map. -/
abbrev keysOf {β : Type} (m : List (String × β)) : List String :=
  m.map Prod.fst

/- ### Pool data model -/

/-- The relay registry: `HashMap<RelayUrl, Relay>`. -/
abbrev Registry := List (RelayUrl × Relay)

/-- Error taxonomy of the pool (`Error` in the pool module). -/
inductive PoolError where
  | shutdown
  | tooManyRelays (limit : Nat)
  | relayNotFound
  | noRelays
  | noRelaysSpecified
  | failed
  | negentropyReconciliationFailed
  | store (msg : String)
  | relay (msg : String)
deriving DecidableEq, Repr

/-- Pool-wide notifications (`RelayPoolNotification`). -/
inductive Notification where
  | relayStatus (url : RelayUrl)
  | message (url : RelayUrl) (msg : String)
  | event (url : RelayUrl) (sid : SubscriptionId) (e : Event)
  | authenticated (url : RelayUrl)
  | shutdown
deriving DecidableEq, Repr

/-- Client messages; only the embedded-event case matters to the pool
(it is persisted before dispatch in `batch_msg_to`). -/
inductive ClientMsg where
  | event (e : Event)
  | other (s : String)
deriving DecidableEq, Repr

/-- Observable side effects of a fan-out call, in order: database writes
(`save_event`) and per-relay dispatches. -/
inductive Action where
  | saveEvent (e : Event)
  | dispatch (u : RelayUrl)
deriving DecidableEq, Repr

/-- The pool's shared mutable state (`AtomicPrivateData`: relays,
subscriptions, shutdown flag) together with the log of notifications sent
on the broadcast channel. -/
structure PoolState where
  relays : Registry
  subscriptions : List (SubscriptionId × List Filter)
  shutdown : Bool
  notifications : List Notification
deriving DecidableEq, Repr

/-- Relay-pool options; only `max_relays` is consulted by the embedded code. -/
structure PoolOpts where
  maxRelays : Option Nat
deriving DecidableEq, Repr

/-- Modelled from the spec: `RelayClient::update_subscription` (outside the
provided sources) overwrites the relay-local filters for the id; with
`send = false` it is local-only and issues no network-level message. -/
def Relay.updateSubscription (r : Relay) (id : SubscriptionId)
    (filters : List Filter) (send : Bool) : Relay :=
  { r with subs := insertA r.subs id filters,
           netSubMsgs := if send then r.netSubMsgs + 1 else r.netSubMsgs }

/-- The `inherit_pool_subscriptions` loop of `add_relay`: install every
current pool subscription on the new relay with `send = false`. -/
def inheritSubs (r : Relay) (subs : List (SubscriptionId × List Filter)) : Relay :=
  subs.foldl (fun acc p => acc.updateSubscription p.1 p.2 false) r

/- ### Lifecycle: remove, shutdown, add -/

/-- Result of the removal operations: the registry after the mutations that
happened before any error, the error (if any), and the relays on which
`disconnect` was invoked. -/
structure RemoveRes where
  relays : Registry
  err : Option PoolError
  disconnected : List RelayUrl
deriving DecidableEq, Repr

/-- Embeds `InnerRelayPool::internal_remove_relay`: take the relay out of
the map (`RelayNotFound` if absent); when not forced and the relay has the
`GOSSIP` flag, demote it (clear `READ | WRITE | DISCOVERY`) and re-insert;
otherwise disconnect it. -/
def internalRemoveRelay (relays : Registry) (url : RelayUrl) (force : Bool) :
    RemoveRes :=
  match lookupA relays url with
  | none => ⟨relays, some .relayNotFound, []⟩
  | some relay =>
    let rest := eraseA relays url
    if !force && relay.flags.gossip then
      ⟨insertA rest url { relay with flags := relay.flags.clearRWD }, none, []⟩
    else
      match relay.disconnectR with
      | .ok _ => ⟨rest, none, [url]⟩
      | .error e => ⟨rest, some (.relay e), [url]⟩

/-- The loop of `remove_all_relays` over a snapshot of the keys; the `?`
on each removal stops at the first error, keeping mutations made so far. -/
def removeAllRelaysAux (relays : Registry) (urls : List RelayUrl) (force : Bool)
    (disc : List RelayUrl) : RemoveRes :=
  match urls with
  | [] => ⟨relays, none, disc⟩
  | u :: rest =>
    match internalRemoveRelay relays u force with
    | ⟨r2, some e, d2⟩ => ⟨r2, some e, disc ++ d2⟩
    | ⟨r2, none, d2⟩ => removeAllRelaysAux r2 rest force (disc ++ d2)

/-- Result of a state-changing pool call: new state, optional error, and
the relays disconnected along the way. -/
structure PoolRes where
  state : PoolState
  err : Option PoolError
  disconnected : List RelayUrl
deriving DecidableEq, Repr

/-- Embeds `InnerRelayPool::remove_all_relays`. -/
def removeAllRelays (st : PoolState) (force : Bool) : PoolRes :=
  match removeAllRelaysAux st.relays (keysOf st.relays) force [] with
  | ⟨r2, oe, d⟩ => ⟨{ st with relays := r2 }, oe, d⟩

/-- Embeds `InnerRelayPool::remove_relay`. -/
def removeRelay (st : PoolState) (url : RelayUrl) (force : Bool) : PoolRes :=
  match internalRemoveRelay st.relays url force with
  | ⟨r2, oe, d⟩ => ⟨{ st with relays := r2 }, oe, d⟩

/-- Embeds `InnerRelayPool::shutdown`: force-remove all relays, send the
`Shutdown` notification, set the atomic shutdown flag. The notification is
sent on every successful call, with no guard on the flag. -/
def shutdown (st : PoolState) : PoolRes :=
  match removeAllRelays st true with
  | ⟨st2, some e, d⟩ => ⟨st2, some e, d⟩
  | ⟨st2, none, d⟩ =>
    ⟨{ st2 with
        notifications := st2.notifications ++ [Notification.shutdown],
        shutdown := true }, none, d⟩

/-- Result of `add_relay`: new pool state plus `Result<bool, Error>`. -/
structure AddRes where
  state : PoolState
  result : Except PoolError Bool
deriving DecidableEq, Repr

/-- Tail of `add_relay` after the shutdown, duplicate and capacity checks:
compose the relay, set its notification sender, optionally inherit the pool
subscriptions, and insert it into the registry at its own URL. -/
def addRelayInsert (st : PoolState) (url : RelayUrl) (inherit : Bool)
    (mk : RelayUrl → Relay) : AddRes :=
  let relay := mk url
  match relay.setNotificationSenderR with
  | .error e => ⟨st, .error (.relay e)⟩
  | .ok _ =>
    let relay := if inherit then inheritSubs relay st.subscriptions else relay
    ⟨{ st with relays := insertA st.relays relay.url relay }, .ok true⟩

/-- Embeds `InnerRelayPool::add_relay`; `mk` stands for the external
constructor `Relay::internal_custom(url, state, opts)`. -/
def addRelay (opts : PoolOpts) (st : PoolState) (url : RelayUrl)
    (inherit : Bool) (mk : RelayUrl → Relay) : AddRes :=
  if st.shutdown then ⟨st, .error .shutdown⟩
  else if containsA st.relays url then ⟨st, .ok false⟩
  else
    match opts.maxRelays with
    | some max =>
      if max ≤ st.relays.length then ⟨st, .error (.tooManyRelays max)⟩
      else addRelayInsert st url inherit mk
    | none => addRelayInsert st url inherit mk

/-- A sequence of `add_relay` calls, threading the pool state. -/
def addRelaySeq (opts : PoolOpts) (st : PoolState) :
    List (RelayUrl × Bool × (RelayUrl → Relay)) → PoolState
  | [] => st
  | a :: t => addRelaySeq opts (addRelay opts st a.1 a.2.1 a.2.2).state t

/- ### Fan-out engine -/

/-- The event-persistence loop of `batch_msg_to`: every embedded
`ClientMessage::Event` is saved to the database before dispatch; the first
database error aborts. -/
def saveMsgsTr (db : Event → Except String Unit) :
    List ClientMsg → Except String Unit × List Action
  | [] => (.ok (), [])
  | .event e :: t =>
    match db e with
    | .error s => (.error s, [Action.saveEvent e])
    | .ok _ =>
      let r := saveMsgsTr db t
      (r.1, Action.saveEvent e :: r.2)
  | .other _ :: t => saveMsgsTr db t

/-- The per-relay loop of the fan-outs: look each URL up in the registry
(`internal_relay`, propagated with `?`) and record the per-relay result. -/
def fanLoop {σ : Type} (relays : Registry) (op : Relay → Except String σ) :
    List RelayUrl → Except PoolError (List (RelayUrl × Except String σ))
  | [] => .ok []
  | u :: rest =>
    match lookupA relays u with
    | none => .error .relayNotFound
    | some r =>
      match fanLoop relays op rest with
      | .error e => .error e
      | .ok l => .ok ((u, op r) :: l)

/-- Partition of per-relay results: an `Ok` contributes the URL (and value)
to the success side, an `Err` contributes `(url, error_text)` to the
failure side. -/
def splitResults {σ : Type} :
    List (RelayUrl × Except String σ) →
      List (RelayUrl × σ) × List (RelayUrl × String)
  | [] => ([], [])
  | (u, .ok v) :: t =>
    let p := splitResults t
    ((u, v) :: p.1, p.2)
  | (u, .error e) :: t =>
    let p := splitResults t
    (p.1, (u, e) :: p.2)

/-- Aggregated fan-out outcome (`Output<T>`). -/
structure Output (σ : Type) where
  val : σ
  success : List RelayUrl
  failed : List (RelayUrl × String)
deriving DecidableEq, Repr

/-- Result of a fan-out call plus its observable side-effect trace. -/
structure FanRes (σ : Type) where
  result : Except PoolError (Output σ)
  trace : List Action
deriving DecidableEq, Repr

/-- Embeds `InnerRelayPool::batch_msg_to` up to (excluding) the final
empty-success check: dedup the URLs, run the three precondition checks,
persist embedded events, dispatch, and build the outcome. -/
def batchMsgToCore (st : PoolState) (db : Event → Except String Unit)
    (urls : List RelayUrl) (msgs : List ClientMsg) : FanRes Unit :=
  let set := urls.dedup
  if set.isEmpty then ⟨.error .noRelaysSpecified, []⟩
  else if st.relays.isEmpty then ⟨.error .noRelays, []⟩
  else if !set.all (fun u => containsA st.relays u) then
    ⟨.error .relayNotFound, []⟩
  else
    let sv := saveMsgsTr db msgs
    match sv.1 with
    | .error e => ⟨.error (.store e), sv.2⟩
    | .ok _ =>
      match fanLoop st.relays (fun r => r.batchMsgR) set with
      | .error e => ⟨.error e, sv.2⟩
      | .ok res =>
        let sp := splitResults res
        ⟨.ok ⟨(), sp.1.map Prod.fst, sp.2⟩, sv.2 ++ set.map Action.dispatch⟩

/-- Embeds `InnerRelayPool::batch_msg_to` (adds the final check: if no
relay accepted, the call fails with `Failed`). -/
def batchMsgTo (st : PoolState) (db : Event → Except String Unit)
    (urls : List RelayUrl) (msgs : List ClientMsg) : FanRes Unit :=
  let c := batchMsgToCore st db urls msgs
  match c.result with
  | .ok out =>
    if out.success.isEmpty then ⟨.error .failed, c.trace⟩ else ⟨.ok out, c.trace⟩
  | .error _ => c

/-- Embeds `InnerRelayPool::send_event_to` up to (excluding) the final
empty-success check: dedup, precondition checks, single database save,
concurrent dispatch joined, outcome built. -/
def sendEventToCore (st : PoolState) (db : Event → Except String Unit)
    (urls : List RelayUrl) (event : Event) : FanRes EventId :=
  let set := urls.dedup
  if set.isEmpty then ⟨.error .noRelaysSpecified, []⟩
  else if st.relays.isEmpty then ⟨.error .noRelays, []⟩
  else if !set.all (fun u => containsA st.relays u) then
    ⟨.error .relayNotFound, []⟩
  else
    match db event with
    | .error e => ⟨.error (.store e), [Action.saveEvent event]⟩
    | .ok _ =>
      match fanLoop st.relays (fun r => r.sendEventR) set with
      | .error e => ⟨.error e, [Action.saveEvent event]⟩
      | .ok res =>
        let sp := splitResults res
        ⟨.ok ⟨event.id, sp.1.map Prod.fst, sp.2⟩,
          Action.saveEvent event :: set.map Action.dispatch⟩

/-- Embeds `InnerRelayPool::send_event_to` (with the final `Failed` check). -/
def sendEventTo (st : PoolState) (db : Event → Except String Unit)
    (urls : List RelayUrl) (event : Event) : FanRes EventId :=
  let c := sendEventToCore st db urls event
  match c.result with
  | .ok out =>
    if out.success.isEmpty then ⟨.error .failed, c.trace⟩ else ⟨.ok out, c.trace⟩
  | .error _ => c

/-- Collection of a target iterator into a `HashMap` keyed by URL: a later
entry for the same URL overwrites an earlier one. -/
def collectTargets {β : Type} : List (RelayUrl × β) → List (RelayUrl × β)
  | [] => []
  | p :: t =>
    if p.1 ∈ t.map Prod.fst then collectTargets t
    else p :: collectTargets t

/-- Embeds `InnerRelayPool::subscribe_targeted` up to (excluding) the final
empty-success check. The per-relay filters only feed the relay call, whose
result is the relay's oracle, so the dispatch iterates the key set. -/
def subscribeTargetedCore (st : PoolState) (id : SubscriptionId)
    (targets : List (RelayUrl × List Filter)) : FanRes Unit :=
  let map := collectTargets targets
  if map.isEmpty then ⟨.error .noRelaysSpecified, []⟩
  else if st.relays.isEmpty then ⟨.error .noRelays, []⟩
  else if !(keysOf map).all (fun u => containsA st.relays u) then
    ⟨.error .relayNotFound, []⟩
  else
    match fanLoop st.relays (fun r => r.subscribeR) (keysOf map) with
    | .error e => ⟨.error e, []⟩
    | .ok res =>
      let sp := splitResults res
      ⟨.ok ⟨(), sp.1.map Prod.fst, sp.2⟩, (keysOf map).map Action.dispatch⟩

/-- Embeds `InnerRelayPool::subscribe_targeted` (with the `Failed` check). -/
def subscribeTargeted (st : PoolState) (id : SubscriptionId)
    (targets : List (RelayUrl × List Filter)) : FanRes Unit :=
  let c := subscribeTargetedCore st id targets
  match c.result with
  | .ok out =>
    if out.success.isEmpty then ⟨.error .failed, c.trace⟩ else ⟨.ok out, c.trace⟩
  | .error _ => c

/-- Per-relay payload of `sync_targeted`: `HashMap<Filter, Vec<(EventId, Timestamp)>>`. -/
abbrev SyncItems := List (Filter × List (EventId × Timestamp))

/-- Embeds `InnerRelayPool::sync_targeted` up to (excluding) the final
empty-success check; successful reconciliations are merged into the value. -/
def syncTargetedCore (st : PoolState) (targets : List (RelayUrl × SyncItems)) :
    FanRes Reconciliation :=
  let map := collectTargets targets
  if map.isEmpty then ⟨.error .noRelaysSpecified, []⟩
  else if st.relays.isEmpty then ⟨.error .noRelays, []⟩
  else if !(keysOf map).all (fun u => containsA st.relays u) then
    ⟨.error .relayNotFound, []⟩
  else
    match fanLoop st.relays (fun r => r.syncR) (keysOf map) with
    | .error e => ⟨.error e, []⟩
    | .ok res =>
      let sp := splitResults res
      ⟨.ok ⟨sp.1.foldl (fun acc p => Reconciliation.merge acc p.2) ⟨[], []⟩,
            sp.1.map Prod.fst, sp.2⟩, (keysOf map).map Action.dispatch⟩

/-- Embeds `InnerRelayPool::sync_targeted` (empty success fails with
`NegentropyReconciliationFailed`). -/
def syncTargeted (st : PoolState) (targets : List (RelayUrl × SyncItems)) :
    FanRes Reconciliation :=
  let c := syncTargetedCore st targets
  match c.result with
  | .ok out =>
    if out.success.isEmpty then
      ⟨.error .negentropyReconciliationFailed, c.trace⟩
    else ⟨.ok out, c.trace⟩
  | .error _ => c

/- ### Streaming aggregator -/

/-- State of the aggregator task of `stream_events_targeted`: `seen` is the
mutex-guarded `HashSet<EventId>` of observed ids, `out` the sequence of
events forwarded into the bounded channel. -/
structure StreamSt where
  seen : List EventId
  out : List Event
deriving DecidableEq, Repr

/-- The per-event callback of `stream_events_targeted`: insert the id into
the shared set; when the insertion is novel, forward via non-blocking
`try_send`, which drops the event when the channel is full (`full`). -/
def streamStep (s : StreamSt) (e : Event) (full : Bool) : StreamSt :=
  if e.id ∈ s.seen then s
  else { seen := e.id :: s.seen, out := if full then s.out else s.out ++ [e] }

/-- A run of the aggregator over the serialized sequence of per-relay event
deliveries (the mutex makes any interleaving a sequence), each paired with
the channel-full condition its `try_send` observes. -/
def streamRun (s : StreamSt) : List (Event × Bool) → StreamSt
  | [] => s
  | d :: rest => streamRun (streamStep s d.1 d.2) rest

/- ### try_connect -/

/-- Embeds `InnerRelayPool::try_connect`: relays whose status does not
satisfy `can_connect()` are skipped; the others are attempted concurrently
and partitioned into an outcome returned without a top-level error. -/
def tryConnect (relays : Registry) : Output Unit :=
  let elig := relays.filter (fun p => p.2.canConnect)
  let sp := splitResults (elig.map (fun p => (p.2.url, p.2.tryConnectR)))
  ⟨(), sp.1.map Prod.fst, sp.2⟩

/- ### Specification predicates -/

/-- Shared preconditions of the fan-out class: non-empty URL set, non-empty
registry, every URL present in the registry. -/
def FanPre (st : PoolState) (urls : List RelayUrl) : Prop :=
  urls ≠ [] ∧ st.relays ≠ [] ∧ ∀ u ∈ urls, containsA st.relays u = true

instance (st : PoolState) (urls : List RelayUrl) : Decidable (FanPre st urls) := by
  unfold FanPre
  infer_instance

/-- The aggregation contract of a fan-out: the pre-check outcome partitions
the deduplicated URL set into success and failure keys, and the call
returns the outcome exactly when at least one relay accepted, failing with
`failErr` otherwise. -/
def FanCovers {σ : Type} (core top : FanRes σ) (set : List RelayUrl)
    (failErr : PoolError) : Prop :=
  ∃ out, core.result = .ok out ∧
    (∀ u, u ∈ set ↔ (u ∈ out.success ∨ u ∈ keysOf out.failed)) ∧
    (∀ u, ¬(u ∈ out.success ∧ u ∈ keysOf out.failed)) ∧
    (out.success = [] → top.result = .error failErr) ∧
    (out.success ≠ [] → top.result = .ok out)

/-- Count of `Shutdown` notifications in a log. -/
def shutdownNoteCount : List Notification → Nat
  | [] => 0
  | Notification.shutdown :: t => shutdownNoteCount t + 1
  | _ :: t => shutdownNoteCount t

/-- An empty pool state, used as the concrete scenario for the double
shutdown counterexample. -/
def emptyPool : PoolState :=
  { relays := [], subscriptions := [], shutdown := false, notifications := [] }

/-- A concrete healthy relay for witnesses. -/
def sampleRelay (u : RelayUrl) : Relay :=
  { url := u, flags := ⟨true, true, false, false, false⟩, canConnect := true,
    sendEventR := .ok 0, batchMsgR := .ok (), subscribeR := .ok (),
    syncR := .ok ⟨[], []⟩, tryConnectR := .ok (), disconnectR := .ok (),
    setNotificationSenderR := .ok (), subs := [], netSubMsgs := 0 }

/-- A concrete gossip-flagged relay for witnesses. -/
def gossipRelay (u : RelayUrl) : Relay :=
  { sampleRelay u with flags := ⟨true, true, false, true, true⟩ }

/-- A concrete relay whose status does not allow connecting. -/
def offlineRelay (u : RelayUrl) : Relay :=
  { sampleRelay u with canConnect := false }

/-- A concrete one-relay pool state for witnesses. -/
def samplePool : PoolState :=
  { relays := [("wss://a", sampleRelay "wss://a")], subscriptions := [],
    shutdown := false, notifications := [] }

/-- A concrete pool state holding a gossip relay for witnesses. -/
def gossipPool : PoolState :=
  { relays := [("wss://c", gossipRelay "wss://c")], subscriptions := [],
    shutdown := false, notifications := [] }

/-- A concrete pool state with one saved subscription for witnesses. -/
def subsPool : PoolState :=
  { relays := [], subscriptions := [("s1", [1])], shutdown := false,
    notifications := [] }

/-- A concrete two-relay registry, one of which cannot connect. -/
def twoRelayRegistry : Registry :=
  [("wss://a", sampleRelay "wss://a"), ("wss://b", offlineRelay "wss://b")]

/-- A concrete delivery sequence with a duplicated event id. -/
def sampleDeliveries : List (Event × Bool) :=
  [(⟨5, "x"⟩, false), (⟨5, "y"⟩, false), (⟨7, "z"⟩, false)]

/-- A database oracle that accepts every write. -/
def dbOk : Event → Except String Unit := fun _ => Except.ok ()

/-- A database oracle that rejects every write. -/
def dbFail : Event → Except String Unit := fun _ => Except.error "db full"

theorem lookupA_eq_none {β : Type} (m : List (String × β)) (k : String) :
    lookupA m k = none ↔ k ∉ keysOf m := by
  induction m with
  | nil => simp [lookupA, keysOf]
  | cons p t ih =>
    simp only [keysOf, List.map_cons, List.mem_cons]
    by_cases h : p.1 = k
    · simp only [lookupA, if_pos h]
      constructor
      · intro hc
        exact absurd hc (by simp)
      · intro hn
        exact absurd (Or.inl h.symm) hn
    · simp only [lookupA, if_neg h]
      rw [ih]
      constructor
      · intro hn hc
        rcases hc with hc | hc
        · exact h hc.symm
        · exact hn hc
      · intro hn hc
        exact hn (Or.inr hc)

theorem containsA_iff {β : Type} (m : List (String × β)) (k : String) :
    containsA m k = true ↔ k ∈ keysOf m := by
  rw [containsA, Option.isSome_iff_ne_none, ne_eq, lookupA_eq_none, not_not]

theorem lookupA_isSome {β : Type} (m : List (String × β)) (k : String)
    (h : k ∈ keysOf m) : ∃ v, lookupA m k = some v := by
  have := (containsA_iff m k).2 h
  rw [containsA, Option.isSome_iff_exists] at this
  exact this

theorem lookupA_eraseA_self {β : Type} (m : List (String × β)) (k : String) :
    lookupA (eraseA m k) k = none := by
  induction m with
  | nil => simp [eraseA, lookupA]
  | cons p t ih =>
    by_cases h : p.1 = k <;> simp [eraseA, lookupA, h, ih]

theorem eraseA_cons_pos {β : Type} (p : String × β) (t : List (String × β))
    (k : String) (h : p.1 = k) : eraseA (p :: t) k = eraseA t k := by
  simp [eraseA, h]

theorem eraseA_cons_neg {β : Type} (p : String × β) (t : List (String × β))
    (k : String) (h : ¬p.1 = k) : eraseA (p :: t) k = p :: eraseA t k := by
  simp [eraseA, h]

theorem lookupA_eraseA_ne {β : Type} (m : List (String × β)) (k k' : String)
    (h : k' ≠ k) : lookupA (eraseA m k) k' = lookupA m k' := by
  induction m with
  | nil => rfl
  | cons p t ih =>
    by_cases hp : p.1 = k
    · have hne : ¬p.1 = k' := fun he => h (he.symm.trans hp)
      rw [eraseA_cons_pos p t k hp, ih]
      simp [lookupA, hne]
    · rw [eraseA_cons_neg p t k hp]
      by_cases hk : p.1 = k'
      · simp [lookupA, hk]
      · simp [lookupA, hk, ih]

theorem lookupA_insertA_self {β : Type} (m : List (String × β)) (k : String)
    (v : β) : lookupA (insertA m k v) k = some v := by
  simp [insertA, lookupA]

theorem lookupA_insertA_ne {β : Type} (m : List (String × β)) (k k' : String)
    (v : β) (h : k' ≠ k) : lookupA (insertA m k v) k' = lookupA m k' := by
  have hne : ¬k = k' := fun he => h he.symm
  simp only [insertA, lookupA, if_neg hne]
  exact lookupA_eraseA_ne m k k' h

theorem keysOf_eraseA {β : Type} (m : List (String × β)) (k k' : String)
    (h : k' ∈ keysOf (eraseA m k)) : k' ∈ keysOf m ∧ k' ≠ k := by
  induction m with
  | nil => exact absurd h (by simp [eraseA, keysOf])
  | cons p t ih =>
    by_cases hp : p.1 = k
    · rw [eraseA_cons_pos p t k hp] at h
      have hh := ih h
      exact ⟨List.mem_cons_of_mem _ hh.1, hh.2⟩
    · rw [eraseA_cons_neg p t k hp] at h
      simp only [keysOf, List.map_cons, List.mem_cons] at h ⊢
      rcases h with h | h
      · exact ⟨Or.inl h, fun he => hp (h.symm.trans he)⟩
      · have hh := ih h
        exact ⟨Or.inr hh.1, hh.2⟩

theorem eraseA_length_le {β : Type} (m : List (String × β)) (k : String) :
    (eraseA m k).length ≤ m.length := by
  induction m with
  | nil => simp [eraseA]
  | cons p t ih =>
    by_cases h : p.1 = k
    · rw [eraseA_cons_pos p t k h]
      exact Nat.le_succ_of_le ih
    · rw [eraseA_cons_neg p t k h]
      exact Nat.succ_le_succ ih

theorem insertA_length_le {β : Type} (m : List (String × β)) (k : String)
    (v : β) : (insertA m k v).length ≤ m.length + 1 := by
  simp only [insertA, List.length_cons]
  exact Nat.succ_le_succ (eraseA_length_le m k)

/- ### Shutdown lemmas -/

theorem internalRemove_force_relays (relays : Registry) (u : RelayUrl)
    (h : (internalRemoveRelay relays u true).err = none) :
    (internalRemoveRelay relays u true).relays = eraseA relays u := by
  cases hl : lookupA relays u with
  | none =>
    unfold internalRemoveRelay at h
    rw [hl] at h
    simp at h
  | some relay =>
    cases hd : relay.disconnectR with
    | ok v =>
      unfold internalRemoveRelay
      rw [hl]
      simp [hd]
    | error e =>
      unfold internalRemoveRelay at h
      rw [hl] at h
      simp [hd] at h

theorem removeAllAux_keys (urls : List RelayUrl) :
    ∀ relays disc, (removeAllRelaysAux relays urls true disc).err = none →
      ∀ k, k ∈ keysOf (removeAllRelaysAux relays urls true disc).relays →
        k ∈ keysOf relays ∧ k ∉ urls := by
  induction urls with
  | nil =>
    intro relays disc _ k hk
    exact ⟨hk, by simp⟩
  | cons u rest ih =>
    intro relays disc h k hk
    rcases hi : internalRemoveRelay relays u true with ⟨r2, oe, d2⟩
    cases oe with
    | some e =>
      have hc : (removeAllRelaysAux relays (u :: rest) true disc).err = some e := by
        simp [removeAllRelaysAux, hi]
      rw [hc] at h
      cases h
    | none =>
      have hstep : removeAllRelaysAux relays (u :: rest) true disc =
          removeAllRelaysAux r2 rest true (disc ++ d2) := by
        simp [removeAllRelaysAux, hi]
      rw [hstep] at h hk
      have hrel : r2 = eraseA relays u := by
        have h2 := internalRemove_force_relays relays u (by rw [hi])
        rw [hi] at h2
        exact h2
      subst hrel
      have hh := ih (eraseA relays u) (disc ++ d2) h k hk
      have hk2 := keysOf_eraseA relays u k hh.1
      refine ⟨hk2.1, ?_⟩
      intro hc
      rcases List.mem_cons.mp hc with hc | hc
      · exact hk2.2 hc
      · exact hh.2 hc

theorem shutdown_ok_state (st : PoolState) (h : (shutdown st).err = none) :
    (shutdown st).state.relays = [] ∧
    (shutdown st).state.shutdown = true ∧
    (shutdown st).state.notifications =
      st.notifications ++ [Notification.shutdown] := by
  rcases hr : removeAllRelaysAux st.relays (keysOf st.relays) true [] with ⟨r2, oe, d⟩
  cases oe with
  | some e =>
    have hc : (shutdown st).err = some e := by
      simp [shutdown, removeAllRelays, hr]
    rw [hc] at h
    cases h
  | none =>
    have hsh : shutdown st =
        PoolRes.mk
          { relays := r2, subscriptions := st.subscriptions,
            shutdown := true,
            notifications := st.notifications ++ [Notification.shutdown] }
          none d := by
      simp [shutdown, removeAllRelays, hr]
    rw [hsh]
    refine ⟨?_, rfl, rfl⟩
    have hk := removeAllAux_keys (keysOf st.relays) st.relays [] (by rw [hr])
    rw [hr] at hk
    simp only at hk
    show r2 = []
    have hknil : keysOf r2 = [] := by
      rw [List.eq_nil_iff_forall_not_mem]
      intro k hkm
      exact (hk k hkm).2 (hk k hkm).1
    exact List.map_eq_nil_iff.mp hknil

theorem shutdown_of_relays_nil (st : PoolState) (h : st.relays = []) :
    (shutdown st).err = none := by
  simp [shutdown, removeAllRelays, h, removeAllRelaysAux, keysOf]

/-- C5: after `shutdown()` returns successfully the registry is empty, the
shutdown flag is set, and every subsequent `add_relay` (for any URL,
options or inherit mode) returns the `Shutdown` error and leaves the pool
state unchanged. -/
theorem shutdown_monotone (st : PoolState) (h : (shutdown st).err = none) :
    (shutdown st).state.relays = [] ∧
    (shutdown st).state.shutdown = true ∧
    ∀ opts url inherit mk,
      addRelay opts (shutdown st).state url inherit mk =
        ⟨(shutdown st).state, Except.error PoolError.shutdown⟩ := by
  have hs := shutdown_ok_state st h
  refine ⟨hs.1, hs.2.1, ?_⟩
  intro opts url inherit mk
  unfold addRelay
  rw [if_pos hs.2.1]

theorem shutdown_monotone_witness :
    (shutdown emptyPool).err = none ∧
    ((shutdown emptyPool).state.relays = [] ∧
     (shutdown emptyPool).state.shutdown = true ∧
     ∀ opts url inherit mk,
       addRelay opts (shutdown emptyPool).state url inherit mk =
         ⟨(shutdown emptyPool).state, Except.error PoolError.shutdown⟩) :=
  ⟨by decide, shutdown_monotone emptyPool (by decide)⟩

/-- C4 counterexample: from the empty pool, two sequential `shutdown()`
calls both succeed, but the notification log then holds two `Shutdown`
notifications, not one — the claim that exactly one is emitted across the
two calls is false on the code. -/
theorem shutdown_twice_cex :
    (shutdown emptyPool).err = none ∧
    (shutdown (shutdown emptyPool).state).err = none ∧
    shutdownNoteCount (shutdown (shutdown emptyPool).state).state.notifications ≠ 1 := by
  decide

/-- C4 (amended): calling `shutdown()` twice succeeds both times, but each
call emits one `Shutdown` notification, so exactly two are emitted in total
(the notification send is not guarded by the shutdown flag). -/
theorem shutdown_twice_two_notifications (st : PoolState)
    (h : (shutdown st).err = none) :
    (shutdown (shutdown st).state).err = none ∧
    (shutdown (shutdown st).state).state.notifications =
      st.notifications ++ [Notification.shutdown, Notification.shutdown] := by
  have hs := shutdown_ok_state st h
  have h2 : (shutdown (shutdown st).state).err = none :=
    shutdown_of_relays_nil (shutdown st).state hs.1
  have hs2 := shutdown_ok_state (shutdown st).state h2
  refine ⟨h2, ?_⟩
  rw [hs2.2.2, hs.2.2, List.append_assoc]
  rfl

theorem shutdown_twice_two_notifications_witness :
    (shutdown emptyPool).err = none ∧
    ((shutdown (shutdown emptyPool).state).err = none ∧
     (shutdown (shutdown emptyPool).state).state.notifications =
       emptyPool.notifications ++ [Notification.shutdown, Notification.shutdown]) :=
  ⟨by decide, shutdown_twice_two_notifications emptyPool (by decide)⟩

/- ### Removal and demotion (C6) -/

/-- C6: a non-force `remove_relay` on a GOSSIP-flagged relay is a demotion,
not an error: the URL stays in the registry with `READ`, `WRITE` and
`DISCOVERY` cleared (and `GOSSIP` kept) and no disconnect is issued; a
relay without `GOSSIP`, or any relay under `force = true`, is disconnected
and removed from the registry. -/
theorem remove_relay_gossip_demotion (st : PoolState) (url : RelayUrl)
    (r : Relay) (h : lookupA st.relays url = some r) :
    (r.flags.gossip = true →
      (removeRelay st url false).err = none ∧
      lookupA (removeRelay st url false).state.relays url =
        some { r with flags := r.flags.clearRWD } ∧
      (removeRelay st url false).disconnected = []) ∧
    (∀ force : Bool, force = true ∨ r.flags.gossip = false →
      lookupA (removeRelay st url force).state.relays url = none ∧
      (removeRelay st url force).disconnected = [url]) := by
  constructor
  · intro hg
    have hi : internalRemoveRelay st.relays url false =
        ⟨insertA (eraseA st.relays url) url { r with flags := r.flags.clearRWD },
          none, []⟩ := by
      unfold internalRemoveRelay
      rw [h]
      simp [hg]
    have hrr : removeRelay st url false =
        ⟨{ st with
            relays := insertA (eraseA st.relays url) url
              { r with flags := r.flags.clearRWD } }, none, []⟩ := by
      simp [removeRelay, hi]
    rw [hrr]
    exact ⟨rfl, lookupA_insertA_self _ url _, rfl⟩
  · intro force hf
    have hcond : (!force && r.flags.gossip) = false := by
      rcases hf with hf | hf
      · rw [hf]
        rfl
      · rw [hf]
        simp
    cases hd : r.disconnectR with
    | ok v =>
      have hi : internalRemoveRelay st.relays url force =
          ⟨eraseA st.relays url, none, [url]⟩ := by
        unfold internalRemoveRelay
        rw [h]
        simp [hcond, hd]
      have hrr : removeRelay st url force =
          ⟨{ st with relays := eraseA st.relays url }, none, [url]⟩ := by
        simp [removeRelay, hi]
      rw [hrr]
      exact ⟨lookupA_eraseA_self _ url, rfl⟩
    | error e =>
      have hi : internalRemoveRelay st.relays url force =
          ⟨eraseA st.relays url, some (.relay e), [url]⟩ := by
        unfold internalRemoveRelay
        rw [h]
        simp [hcond, hd]
      have hrr : removeRelay st url force =
          ⟨{ st with relays := eraseA st.relays url }, some (.relay e), [url]⟩ := by
        simp [removeRelay, hi]
      rw [hrr]
      exact ⟨lookupA_eraseA_self _ url, rfl⟩

theorem remove_relay_gossip_demotion_witness :
    (gossipRelay "wss://c").flags.gossip = true ∧
    (removeRelay gossipPool "wss://c" false).err = none ∧
    lookupA (removeRelay gossipPool "wss://c" false).state.relays "wss://c" =
      some { gossipRelay "wss://c" with
              flags := (gossipRelay "wss://c").flags.clearRWD } :=
  ⟨by decide,
   ((remove_relay_gossip_demotion gossipPool "wss://c" (gossipRelay "wss://c")
      (by decide)).1 (by decide)).1,
   ((remove_relay_gossip_demotion gossipPool "wss://c" (gossipRelay "wss://c")
      (by decide)).1 (by decide)).2.1⟩

/- ### add_relay: idempotence and capacity (C7) -/

theorem addRelay_length_le (opts : PoolOpts) (st : PoolState) (url : RelayUrl)
    (inherit : Bool) (mk : RelayUrl → Relay) (m : Nat)
    (hm : opts.maxRelays = some m) (hlen : st.relays.length ≤ m) :
    (addRelay opts st url inherit mk).state.relays.length ≤ m := by
  unfold addRelay
  by_cases hs : st.shutdown = true
  · rw [if_pos hs]
    exact hlen
  · rw [if_neg hs]
    by_cases hc : containsA st.relays url = true
    · rw [if_pos hc]
      exact hlen
    · rw [if_neg hc]
      simp only [hm]
      by_cases hcap : m ≤ st.relays.length
      · rw [if_pos hcap]
        exact hlen
      · rw [if_neg hcap]
        cases hns : (mk url).setNotificationSenderR with
        | error e =>
          simp only [addRelayInsert, hns]
          exact hlen
        | ok v =>
          simp only [addRelayInsert, hns]
          have hlt : st.relays.length < m := Nat.lt_of_not_le hcap
          exact Nat.le_trans (insertA_length_le st.relays _ _) hlt

/-- C7: `add_relay` with an already-present URL returns `Ok(false)` and
leaves the pool unchanged (the duplicate check precedes the capacity
check, so this holds at the cap too); `TooManyRelays` arises exactly for
an absent URL on a live pool whose registry has reached `max_relays`; and
consequently a capped registry never exceeds its cap across any sequence
of `add_relay` calls. -/
theorem add_relay_idempotent_capped (opts : PoolOpts) (st : PoolState)
    (url : RelayUrl) (inherit : Bool) (mk : RelayUrl → Relay) :
    (st.shutdown = false → containsA st.relays url = true →
      addRelay opts st url inherit mk = ⟨st, Except.ok false⟩) ∧
    (∀ m, (addRelay opts st url inherit mk).result =
        Except.error (PoolError.tooManyRelays m) ↔
      (st.shutdown = false ∧ containsA st.relays url = false ∧
        opts.maxRelays = some m ∧ m ≤ st.relays.length)) ∧
    (∀ m, opts.maxRelays = some m → st.relays.length ≤ m →
      ∀ calls, (addRelaySeq opts st calls).relays.length ≤ m) := by
  refine ⟨?_, ?_, ?_⟩
  · intro h1 h2
    unfold addRelay
    rw [if_neg (by simp [h1]), if_pos h2]
  · intro m
    constructor
    · intro hres
      unfold addRelay at hres
      by_cases hs : st.shutdown = true
      · rw [if_pos hs] at hres
        simp at hres
      · rw [if_neg hs] at hres
        by_cases hc : containsA st.relays url = true
        · rw [if_pos hc] at hres
          simp at hres
        · rw [if_neg hc] at hres
          cases hmax : opts.maxRelays with
          | none =>
            simp only [hmax] at hres
            cases hns : (mk url).setNotificationSenderR with
            | error e => simp [addRelayInsert, hns] at hres
            | ok v => simp [addRelayInsert, hns] at hres
          | some mx =>
            simp only [hmax] at hres
            by_cases hcap : mx ≤ st.relays.length
            · rw [if_pos hcap] at hres
              have hmx : mx = m := by simpa using hres
              refine ⟨by simpa using hs, by simpa using hc,
                by rw [hmx], ?_⟩
              rw [← hmx]
              exact hcap
            · rw [if_neg hcap] at hres
              cases hns : (mk url).setNotificationSenderR with
              | error e => simp [addRelayInsert, hns] at hres
              | ok v => simp [addRelayInsert, hns] at hres
    · rintro ⟨h1, h2, h3, h4⟩
      unfold addRelay
      rw [if_neg (by simp [h1]), if_neg (by simp [h2])]
      simp only [h3]
      rw [if_pos h4]
  · intro m hm hlen calls
    induction calls generalizing st with
    | nil => exact hlen
    | cons a t ih =>
      exact ih (addRelay opts st a.1 a.2.1 a.2.2).state
        (addRelay_length_le opts st a.1 a.2.1 a.2.2 m hm hlen)

theorem add_relay_idempotent_capped_witness :
    samplePool.shutdown = false ∧
    containsA samplePool.relays "wss://a" = true ∧
    addRelay ⟨some 1⟩ samplePool "wss://a" false sampleRelay =
      ⟨samplePool, Except.ok false⟩ :=
  ⟨by decide, by decide,
   (add_relay_idempotent_capped ⟨some 1⟩ samplePool "wss://a" false
      sampleRelay).1 (by decide) (by decide)⟩

/- ### add_relay: subscription inheritance (C9) -/

theorem inheritSubs_cons (r : Relay) (p : SubscriptionId × List Filter)
    (t : List (SubscriptionId × List Filter)) :
    inheritSubs r (p :: t) =
      inheritSubs (r.updateSubscription p.1 p.2 false) t := rfl

theorem inheritSubs_net (subs : List (SubscriptionId × List Filter)) :
    ∀ r : Relay, (inheritSubs r subs).netSubMsgs = r.netSubMsgs := by
  induction subs with
  | nil => intro r; rfl
  | cons p t ih =>
    intro r
    rw [inheritSubs_cons, ih]
    rfl

theorem inheritSubs_url (subs : List (SubscriptionId × List Filter)) :
    ∀ r : Relay, (inheritSubs r subs).url = r.url := by
  induction subs with
  | nil => intro r; rfl
  | cons p t ih =>
    intro r
    rw [inheritSubs_cons, ih]
    rfl

theorem inheritSubs_lookup_not_mem (subs : List (SubscriptionId × List Filter)) :
    ∀ (r : Relay) (i : SubscriptionId), i ∉ subs.map Prod.fst →
      lookupA (inheritSubs r subs).subs i = lookupA r.subs i := by
  induction subs with
  | nil =>
    intro r i _
    rfl
  | cons p t ih =>
    intro r i h
    rw [inheritSubs_cons]
    have h1 : i ∉ t.map Prod.fst := fun hc => h (List.mem_cons_of_mem _ hc)
    have h2 : i ≠ p.1 := fun hc => h (by rw [hc]; exact List.mem_cons_self _ _)
    rw [ih _ i h1]
    exact lookupA_insertA_ne _ _ _ _ h2

theorem inheritSubs_lookup_mem (subs : List (SubscriptionId × List Filter)) :
    ∀ (r : Relay) (i : SubscriptionId) (f : List Filter),
      (subs.map Prod.fst).Nodup → (i, f) ∈ subs →
      lookupA (inheritSubs r subs).subs i = some f := by
  induction subs with
  | nil =>
    intro r i f _ hm
    cases hm
  | cons p t ih =>
    intro r i f hnd hm
    rw [List.map_cons, List.nodup_cons] at hnd
    rw [inheritSubs_cons]
    rcases List.mem_cons.mp hm with hm | hm
    · have hi : i = p.1 := by rw [← hm]
      have hni : i ∉ t.map Prod.fst := hi ▸ hnd.1
      rw [inheritSubs_lookup_not_mem t _ i hni]
      show lookupA (insertA r.subs p.1 p.2) i = some f
      rw [← hm]
      exact lookupA_insertA_self _ _ _
    · exact ih _ i f hnd.2 hm

/-- C9: a successful `add_relay(url, inherit_pool_subscriptions = true, _)`
installs every current pool subscription on the newly created relay via
`update_subscription` with `send = false`: the relay in the registry holds
every `(id, filters)` entry locally and has issued no network-level
subscription message. -/
theorem add_relay_inherit_subscriptions (opts : PoolOpts) (st : PoolState)
    (url : RelayUrl) (mk : RelayUrl → Relay)
    (h1 : st.shutdown = false)
    (h2 : containsA st.relays url = false)
    (h3 : ∀ m, opts.maxRelays = some m → st.relays.length < m)
    (h4 : (mk url).setNotificationSenderR = Except.ok ())
    (h5 : (st.subscriptions.map Prod.fst).Nodup) :
    (addRelay opts st url true mk).result = Except.ok true ∧
    ∃ nr, lookupA (addRelay opts st url true mk).state.relays
        (mk url).url = some nr ∧
      (∀ i f, (i, f) ∈ st.subscriptions → lookupA nr.subs i = some f) ∧
      nr.netSubMsgs = (mk url).netSubMsgs := by
  have hins : (addRelay opts st url true mk).result = Except.ok true ∧
      (addRelay opts st url true mk).state.relays =
        insertA st.relays (inheritSubs (mk url) st.subscriptions).url
          (inheritSubs (mk url) st.subscriptions) := by
    unfold addRelay
    rw [if_neg (by simp [h1]), if_neg (by simp [h2])]
    cases hmax : opts.maxRelays with
    | none =>
      constructor <;> simp [addRelayInsert, h4]
    | some m =>
      have hnle : ¬m ≤ st.relays.length := Nat.not_le_of_lt (h3 m hmax)
      constructor <;> simp [addRelayInsert, h4, hnle]
  refine ⟨hins.1, inheritSubs (mk url) st.subscriptions, ?_, ?_, ?_⟩
  · rw [hins.2, inheritSubs_url]
    exact lookupA_insertA_self _ _ _
  · intro i f hm
    exact inheritSubs_lookup_mem st.subscriptions (mk url) i f h5 hm
  · exact inheritSubs_net st.subscriptions (mk url)

theorem add_relay_inherit_subscriptions_witness :
    (subsPool.subscriptions.map Prod.fst).Nodup ∧
    (addRelay ⟨none⟩ subsPool "wss://a" true sampleRelay).result =
      Except.ok true :=
  ⟨by decide,
   (add_relay_inherit_subscriptions ⟨none⟩ subsPool "wss://a" sampleRelay
     (by decide) (by decide) (fun m hm => nomatch hm) (by decide)
     (by decide)).1⟩

/- ### Outcome partition lemmas -/

theorem splitResults_perm {σ : Type} (l : List (RelayUrl × Except String σ)) :
    ((splitResults l).1.map Prod.fst ++ (splitResults l).2.map Prod.fst).Perm
      (l.map Prod.fst) := by
  induction l with
  | nil => simp [splitResults]
  | cons p t ih =>
    rcases p with ⟨u, r⟩
    cases r with
    | ok v =>
      simp only [splitResults, List.map_cons, List.cons_append]
      exact List.Perm.cons u ih
    | error e =>
      simp only [splitResults, List.map_cons]
      exact List.perm_middle.trans (List.Perm.cons u ih)

theorem splitResults_mem {σ : Type} (l : List (RelayUrl × Except String σ))
    (u : RelayUrl) :
    (u ∈ (splitResults l).1.map Prod.fst ∨
      u ∈ (splitResults l).2.map Prod.fst) ↔ u ∈ l.map Prod.fst := by
  rw [← List.mem_append]
  exact (splitResults_perm l).mem_iff

theorem splitResults_disjoint {σ : Type} (l : List (RelayUrl × Except String σ))
    (h : (l.map Prod.fst).Nodup) (u : RelayUrl) :
    ¬(u ∈ (splitResults l).1.map Prod.fst ∧
      u ∈ (splitResults l).2.map Prod.fst) := by
  intro hu
  have hnd : ((splitResults l).1.map Prod.fst ++
      (splitResults l).2.map Prod.fst).Nodup :=
    ((splitResults_perm l).nodup_iff).mpr h
  rw [List.nodup_append] at hnd
  exact hnd.2.2 hu.1 hu.2

/- ### try_connect (C10) -/

theorem tryConnect_keys (relays : Registry)
    (hwf : ∀ p ∈ relays, (p.2).url = p.1) :
    ((relays.filter (fun p => p.2.canConnect)).map
        (fun p => ((p.2).url, (p.2).tryConnectR))).map Prod.fst =
      (relays.filter (fun p => p.2.canConnect)).map Prod.fst := by
  rw [List.map_map]
  exact List.map_congr_left
    (fun p hp => hwf p (List.mem_of_mem_filter hp))

/-- C10: `try_connect` returns an outcome rather than a top-level error: on
the empty registry both sets are empty, and a URL lands in
`success ∪ failed.keys` exactly when its relay is in the registry and its
status allows connecting — relays failing `can_connect()` are skipped and
appear in neither set, so the union may be a strict subset of the
registry. -/
theorem try_connect_partitions (relays : Registry)
    (hwf : ∀ p ∈ relays, (p.2).url = p.1)
    (hnd : (keysOf relays).Nodup) :
    ((tryConnect ([] : Registry)).success = [] ∧
      (tryConnect ([] : Registry)).failed = []) ∧
    (∀ u, (u ∈ (tryConnect relays).success ∨
        u ∈ keysOf (tryConnect relays).failed) ↔
      ∃ r, (u, r) ∈ relays ∧ r.canConnect = true) ∧
    (∀ u, ¬(u ∈ (tryConnect relays).success ∧
        u ∈ keysOf (tryConnect relays).failed)) := by
  refine ⟨⟨rfl, rfl⟩, ?_, ?_⟩
  · intro u
    show (u ∈ (splitResults ((relays.filter (fun p => p.2.canConnect)).map
        (fun p => ((p.2).url, (p.2).tryConnectR)))).1.map Prod.fst ∨
      u ∈ (splitResults ((relays.filter (fun p => p.2.canConnect)).map
        (fun p => ((p.2).url, (p.2).tryConnectR)))).2.map Prod.fst) ↔ _
    rw [splitResults_mem, tryConnect_keys relays hwf]
    constructor
    · intro hm
      rcases List.mem_map.mp hm with ⟨p, hp, hpu⟩
      rcases List.mem_filter.mp hp with ⟨hpr, hpc⟩
      rcases p with ⟨a, r⟩
      cases hpu
      exact ⟨r, hpr, hpc⟩
    · rintro ⟨r, hr, hc⟩
      exact List.mem_map.mpr ⟨(u, r), List.mem_filter.mpr ⟨hr, hc⟩, rfl⟩
  · intro u
    have hnd2 : (((relays.filter (fun p => p.2.canConnect)).map
        (fun p => ((p.2).url, (p.2).tryConnectR))).map Prod.fst).Nodup := by
      rw [tryConnect_keys relays hwf]
      exact ((relays.filter_sublist).map Prod.fst).nodup hnd
    exact splitResults_disjoint _ hnd2 u

theorem try_connect_partitions_witness :
    (∀ p ∈ twoRelayRegistry, (p.2).url = p.1) ∧
    ¬("wss://b" ∈ (tryConnect twoRelayRegistry).success ∧
      "wss://b" ∈ keysOf (tryConnect twoRelayRegistry).failed) :=
  ⟨by decide,
   (try_connect_partitions twoRelayRegistry (by decide) (by decide)).2.2
     "wss://b"⟩

/- ### Streaming deduplication (C8) -/

theorem streamRun_append (a b : List (Event × Bool)) :
    ∀ s, streamRun s (a ++ b) = streamRun (streamRun s a) b := by
  induction a with
  | nil => intro s; rfl
  | cons d t ih =>
    intro s
    simp only [List.cons_append, streamRun]
    exact ih _

theorem streamRun_invariant (ds : List (Event × Bool)) :
    ∀ s : StreamSt,
      (s.out.map Event.id).Nodup →
      (∀ i ∈ s.out.map Event.id, i ∈ s.seen) →
      ((streamRun s ds).out.map Event.id).Nodup ∧
      (∀ i ∈ (streamRun s ds).out.map Event.id, i ∈ (streamRun s ds).seen) ∧
      (∀ i ∈ s.seen, i ∈ (streamRun s ds).seen) ∧
      (∀ d ∈ ds, d.1.id ∈ (streamRun s ds).seen) ∧
      (∀ e ∈ (streamRun s ds).out, e ∈ s.out ∨ e.id ∉ s.seen) := by
  induction ds with
  | nil =>
    intro s h1 h2
    exact ⟨h1, h2, fun i hi => hi, fun d hd => absurd hd (List.not_mem_nil d),
      fun e he => Or.inl he⟩
  | cons d t ih =>
    intro s h1 h2
    simp only [streamRun]
    by_cases hc : d.1.id ∈ s.seen
    · have hstep : streamStep s d.1 d.2 = s := by simp [streamStep, hc]
      rw [hstep]
      have hr := ih s h1 h2
      exact ⟨hr.1, hr.2.1, hr.2.2.1,
        fun d2 hd2 => by
          rcases List.mem_cons.mp hd2 with hd2 | hd2
          · rw [hd2]; exact hr.2.2.1 _ hc
          · exact hr.2.2.2.1 d2 hd2,
        hr.2.2.2.2⟩
    · have hseen : (streamStep s d.1 d.2).seen = d.1.id :: s.seen := by
        simp [streamStep, hc]
      have hout : (streamStep s d.1 d.2).out =
          if d.2 then s.out else s.out ++ [d.1] := by
        simp [streamStep, hc]
      have h1s : ((streamStep s d.1 d.2).out.map Event.id).Nodup := by
        rw [hout]
        cases hfull : d.2 with
        | true => simpa using h1
        | false =>
          simp only [if_neg (by simp : ¬false = true), List.map_append,
            List.map_cons, List.map_nil]
          rw [List.nodup_append]
          refine ⟨h1, List.nodup_singleton _, ?_⟩
          intro x hx hx2
          rw [List.mem_singleton] at hx2
          rw [hx2] at hx
          exact hc (h2 _ hx)
      have h2s : ∀ i ∈ (streamStep s d.1 d.2).out.map Event.id,
          i ∈ (streamStep s d.1 d.2).seen := by
        rw [hout, hseen]
        intro i hi
        cases hfull : d.2 with
        | true =>
          rw [hfull] at hi
          simp only [if_pos rfl] at hi
          exact List.mem_cons_of_mem _ (h2 i hi)
        | false =>
          rw [hfull] at hi
          simp only [if_neg (by simp : ¬false = true), List.map_append,
            List.map_cons, List.map_nil] at hi
          rcases List.mem_append.mp hi with hi | hi
          · exact List.mem_cons_of_mem _ (h2 i hi)
          · rw [List.mem_singleton] at hi
            rw [hi]
            exact List.mem_cons_self _ _
      have hr := ih (streamStep s d.1 d.2) h1s h2s
      refine ⟨hr.1, hr.2.1, ?_, ?_, ?_⟩
      · intro i hi
        apply hr.2.2.1
        rw [hseen]
        exact List.mem_cons_of_mem _ hi
      · intro d2 hd2
        rcases List.mem_cons.mp hd2 with hd2 | hd2
        · rw [hd2]
          apply hr.2.2.1
          rw [hseen]
          exact List.mem_cons_self _ _
        · exact hr.2.2.2.1 d2 hd2
      · intro e he
        rcases hr.2.2.2.2 e he with heo | hes
        · rw [hout] at heo
          cases hfull : d.2 with
          | true =>
            rw [hfull] at heo
            simp only [if_pos rfl] at heo
            exact Or.inl heo
          | false =>
            rw [hfull] at heo
            simp only [if_neg (by simp : ¬false = true)] at heo
            rcases List.mem_append.mp heo with heo | heo
            · exact Or.inl heo
            · rw [List.mem_singleton] at heo
              rw [heo]
              exact Or.inr hc
        · rw [hseen] at hes
          exact Or.inr (fun hmem => hes (List.mem_cons_of_mem _ hmem))

/-- C8: for every serialized delivery interleaving and every channel-full
pattern, the stream forwards each `EventId` at most once: the forwarded
events carry pairwise-distinct ids, every delivered id is recorded in the
shared observed set, and an event dropped by a full-channel `try_send`
while novel still has its id recorded, so its id never reaches the output
at all. -/
theorem stream_yields_each_id_once (ds : List (Event × Bool)) :
    ((streamRun ⟨[], []⟩ ds).out.map Event.id).Nodup ∧
    (∀ d ∈ ds, d.1.id ∈ (streamRun ⟨[], []⟩ ds).seen) ∧
    (∀ pre e rest, ds = pre ++ (e, true) :: rest →
      e.id ∉ (streamRun ⟨[], []⟩ pre).seen →
      e.id ∉ (streamRun ⟨[], []⟩ ds).out.map Event.id) := by
  have hinv := streamRun_invariant ds ⟨[], []⟩ (by simp) (by simp)
  refine ⟨hinv.1, hinv.2.2.2.1, ?_⟩
  intro pre e rest hds hnot
  rw [hds, streamRun_append]
  have hstep : streamRun (streamRun ⟨[], []⟩ pre) ((e, true) :: rest) =
      streamRun (streamStep (streamRun ⟨[], []⟩ pre) e true) rest := rfl
  rw [hstep]
  have hinv1 := streamRun_invariant pre ⟨[], []⟩ (by simp) (by simp)
  have hs2seen : (streamStep (streamRun ⟨[], []⟩ pre) e true).seen =
      e.id :: (streamRun ⟨[], []⟩ pre).seen := by
    simp [streamStep, hnot]
  have hs2out : (streamStep (streamRun ⟨[], []⟩ pre) e true).out =
      (streamRun ⟨[], []⟩ pre).out := by
    simp [streamStep, hnot]
  have hinv2 := streamRun_invariant rest
    (streamStep (streamRun ⟨[], []⟩ pre) e true)
    (by rw [hs2out]; exact hinv1.1)
    (by
      rw [hs2out, hs2seen]
      intro i hi
      exact List.mem_cons_of_mem _ (hinv1.2.1 i hi))
  intro hmem
  rcases List.mem_map.mp hmem with ⟨f, hf, hfid⟩
  rcases hinv2.2.2.2.2 f hf with hfo | hfs
  · rw [hs2out] at hfo
    have hm1 : f.id ∈ (streamRun ⟨[], []⟩ pre).out.map Event.id :=
      List.mem_map_of_mem _ hfo
    have hm2 := hinv1.2.1 _ hm1
    rw [hfid] at hm2
    exact hnot hm2
  · rw [hs2seen] at hfs
    exact hfs (hfid ▸ List.mem_cons_self _ _)

theorem stream_yields_each_id_once_witness :
    ((streamRun ⟨[], []⟩ sampleDeliveries).out.map Event.id).Nodup :=
  (stream_yields_each_id_once sampleDeliveries).1

/- ### Fan-out engine lemmas -/

theorem isEmpty_false_of_ne_nil {α : Type} (l : List α) (h : l ≠ []) :
    l.isEmpty = false := by
  cases l with
  | nil => exact absurd rfl h
  | cons a t => rfl

theorem fanLoop_ok {σ : Type} (relays : Registry)
    (op : Relay → Except String σ) :
    ∀ us : List RelayUrl, (∀ u ∈ us, containsA relays u = true) →
      ∃ res, fanLoop relays op us = Except.ok res ∧ res.map Prod.fst = us := by
  intro us
  induction us with
  | nil =>
    intro _
    exact ⟨[], rfl, rfl⟩
  | cons u rest ih =>
    intro h
    have hu := h u (List.mem_cons_self _ _)
    rw [containsA, Option.isSome_iff_exists] at hu
    rcases hu with ⟨r, hr⟩
    rcases ih (fun x hx => h x (List.mem_cons_of_mem _ hx)) with ⟨res, hres, hmap⟩
    refine ⟨(u, op r) :: res, ?_, by simp [hmap]⟩
    simp [fanLoop, hr, hres]

theorem collectTargets_cons_mem {β : Type} (p : RelayUrl × β)
    (t : List (RelayUrl × β)) (h : p.1 ∈ t.map Prod.fst) :
    collectTargets (p :: t) = collectTargets t := by
  simp [collectTargets, h]

theorem collectTargets_cons_not_mem {β : Type} (p : RelayUrl × β)
    (t : List (RelayUrl × β)) (h : p.1 ∉ t.map Prod.fst) :
    collectTargets (p :: t) = p :: collectTargets t := by
  simp [collectTargets, h]

theorem collectTargets_keys_mem {β : Type} (l : List (RelayUrl × β))
    (u : RelayUrl) :
    u ∈ keysOf (collectTargets l) ↔ u ∈ l.map Prod.fst := by
  induction l with
  | nil => simp [collectTargets]
  | cons p t ih =>
    by_cases hc : p.1 ∈ t.map Prod.fst
    · rw [collectTargets_cons_mem p t hc, ih]
      simp only [List.map_cons, List.mem_cons]
      constructor
      · exact Or.inr
      · intro h
        rcases h with h | h
        · rw [h]
          exact hc
        · exact h
    · rw [collectTargets_cons_not_mem p t hc]
      simp only [keysOf, List.map_cons, List.mem_cons]
      rw [ih]

theorem collectTargets_keys_nodup {β : Type} (l : List (RelayUrl × β)) :
    (keysOf (collectTargets l)).Nodup := by
  induction l with
  | nil => simp [collectTargets, keysOf]
  | cons p t ih =>
    by_cases hc : p.1 ∈ t.map Prod.fst
    · rw [collectTargets_cons_mem p t hc]
      exact ih
    · rw [collectTargets_cons_not_mem p t hc]
      simp only [keysOf, List.map_cons]
      exact List.nodup_cons.mpr
        ⟨fun hm => hc ((collectTargets_keys_mem t p.1).mp hm), ih⟩

theorem collectTargets_eq_nil {β : Type} (l : List (RelayUrl × β)) :
    collectTargets l = [] ↔ l = [] := by
  induction l with
  | nil => simp [collectTargets]
  | cons p t ih =>
    constructor
    · intro h
      by_cases hc : p.1 ∈ t.map Prod.fst
      · rw [collectTargets_cons_mem p t hc] at h
        have ht := ih.mp h
        rw [ht] at hc
        cases hc
      · rw [collectTargets_cons_not_mem p t hc] at h
        cases h
    · intro h
      cases h

/- ### Fan-out partition (C1) -/

/-- C1: for each of the four fan-outs, once the preconditions (and the
database writes, where applicable) pass, the built outcome partitions the
deduplicated input URL set: every URL lands in exactly one of `success`
(its relay returned `Ok`) or `failed` (keyed by error text), and the call
returns the outcome iff `success` is non-empty, otherwise failing with
`Failed` (`NegentropyReconciliationFailed` for the sync fan-out). -/
theorem fanout_partition (st : PoolState) (db : Event → Except String Unit) :
    (∀ urls msgs, FanPre st urls → (saveMsgsTr db msgs).1 = Except.ok () →
      FanCovers (batchMsgToCore st db urls msgs) (batchMsgTo st db urls msgs)
        urls.dedup PoolError.failed) ∧
    (∀ urls e, FanPre st urls → db e = Except.ok () →
      FanCovers (sendEventToCore st db urls e) (sendEventTo st db urls e)
        urls.dedup PoolError.failed) ∧
    (∀ sid targets, FanPre st (targets.map Prod.fst) →
      FanCovers (subscribeTargetedCore st sid targets)
        (subscribeTargeted st sid targets)
        (keysOf (collectTargets targets)) PoolError.failed) ∧
    (∀ targets, FanPre st (targets.map Prod.fst) →
      FanCovers (syncTargetedCore st targets) (syncTargeted st targets)
        (keysOf (collectTargets targets))
        PoolError.negentropyReconciliationFailed) := by
  refine ⟨?_, ?_, ?_, ?_⟩
  · -- batch_msg_to
    rintro urls msgs ⟨hne, hrne, hall⟩ hsv
    have hdne : urls.dedup ≠ [] := fun hd => hne ((List.dedup_eq_nil urls).mp hd)
    have hset : urls.dedup.all (fun u => containsA st.relays u) = true :=
      List.all_eq_true.mpr (fun u hu => hall u (List.mem_dedup.mp hu))
    rcases fanLoop_ok st.relays (fun r => r.batchMsgR) urls.dedup
      (fun u hu => hall u (List.mem_dedup.mp hu)) with ⟨res, hfan, hmap⟩
    have hcoreEq : batchMsgToCore st db urls msgs =
        ⟨Except.ok ⟨(), (splitResults res).1.map Prod.fst, (splitResults res).2⟩,
          (saveMsgsTr db msgs).2 ++ urls.dedup.map Action.dispatch⟩ := by
      simp only [batchMsgToCore]
      rw [if_neg (by rw [isEmpty_false_of_ne_nil _ hdne]; simp),
          if_neg (by rw [isEmpty_false_of_ne_nil _ hrne]; simp),
          if_neg (by rw [hset]; simp)]
      simp only [hsv, hfan]
    unfold FanCovers
    refine ⟨⟨(), (splitResults res).1.map Prod.fst, (splitResults res).2⟩,
      by rw [hcoreEq], ?_, ?_, ?_, ?_⟩
    · intro u
      show u ∈ urls.dedup ↔ _ ∨ u ∈ (splitResults res).2.map Prod.fst
      rw [← hmap]
      exact (splitResults_mem res u).symm
    · intro u
      exact splitResults_disjoint res
        (by rw [hmap]; exact List.nodup_dedup urls) u
    · intro hS
      have hS2 : (splitResults res).1.map Prod.fst = [] := hS
      simp only [batchMsgTo, hcoreEq, hS2]
      simp
    · intro hS
      have hS2 : (splitResults res).1.map Prod.fst ≠ [] := hS
      simp only [batchMsgTo, hcoreEq]
      rw [isEmpty_false_of_ne_nil _ hS2]
      rfl
  · -- send_event_to
    rintro urls e ⟨hne, hrne, hall⟩ hdb
    have hdne : urls.dedup ≠ [] := fun hd => hne ((List.dedup_eq_nil urls).mp hd)
    have hset : urls.dedup.all (fun u => containsA st.relays u) = true :=
      List.all_eq_true.mpr (fun u hu => hall u (List.mem_dedup.mp hu))
    rcases fanLoop_ok st.relays (fun r => r.sendEventR) urls.dedup
      (fun u hu => hall u (List.mem_dedup.mp hu)) with ⟨res, hfan, hmap⟩
    have hcoreEq : sendEventToCore st db urls e =
        ⟨Except.ok ⟨e.id, (splitResults res).1.map Prod.fst, (splitResults res).2⟩,
          Action.saveEvent e :: urls.dedup.map Action.dispatch⟩ := by
      simp only [sendEventToCore]
      rw [if_neg (by rw [isEmpty_false_of_ne_nil _ hdne]; simp),
          if_neg (by rw [isEmpty_false_of_ne_nil _ hrne]; simp),
          if_neg (by rw [hset]; simp)]
      simp only [hdb, hfan]
    unfold FanCovers
    refine ⟨⟨e.id, (splitResults res).1.map Prod.fst, (splitResults res).2⟩,
      by rw [hcoreEq], ?_, ?_, ?_, ?_⟩
    · intro u
      show u ∈ urls.dedup ↔ _ ∨ u ∈ (splitResults res).2.map Prod.fst
      rw [← hmap]
      exact (splitResults_mem res u).symm
    · intro u
      exact splitResults_disjoint res
        (by rw [hmap]; exact List.nodup_dedup urls) u
    · intro hS
      have hS2 : (splitResults res).1.map Prod.fst = [] := hS
      simp only [sendEventTo, hcoreEq, hS2]
      simp
    · intro hS
      have hS2 : (splitResults res).1.map Prod.fst ≠ [] := hS
      simp only [sendEventTo, hcoreEq]
      rw [isEmpty_false_of_ne_nil _ hS2]
      rfl
  · -- subscribe_targeted
    rintro sid targets ⟨hne, hrne, hall⟩
    have htne : targets ≠ [] := fun h => hne (by rw [h]; rfl)
    have hmne : collectTargets targets ≠ [] :=
      fun h => htne ((collectTargets_eq_nil targets).mp h)
    have hkall : ∀ u ∈ keysOf (collectTargets targets),
        containsA st.relays u = true :=
      fun u hu => hall u ((collectTargets_keys_mem targets u).mp hu)
    have hset : (keysOf (collectTargets targets)).all
        (fun u => containsA st.relays u) = true :=
      List.all_eq_true.mpr hkall
    rcases fanLoop_ok st.relays (fun r => r.subscribeR)
      (keysOf (collectTargets targets)) hkall with ⟨res, hfan, hmap⟩
    have hcoreEq : subscribeTargetedCore st sid targets =
        ⟨Except.ok ⟨(), (splitResults res).1.map Prod.fst, (splitResults res).2⟩,
          (keysOf (collectTargets targets)).map Action.dispatch⟩ := by
      simp only [subscribeTargetedCore]
      rw [if_neg (by rw [isEmpty_false_of_ne_nil _ hmne]; simp),
          if_neg (by rw [isEmpty_false_of_ne_nil _ hrne]; simp),
          if_neg (by rw [hset]; simp)]
      simp only [hfan]
    unfold FanCovers
    refine ⟨⟨(), (splitResults res).1.map Prod.fst, (splitResults res).2⟩,
      by rw [hcoreEq], ?_, ?_, ?_, ?_⟩
    · intro u
      show u ∈ keysOf (collectTargets targets) ↔
        _ ∨ u ∈ (splitResults res).2.map Prod.fst
      rw [← hmap]
      exact (splitResults_mem res u).symm
    · intro u
      exact splitResults_disjoint res
        (by rw [hmap]; exact collectTargets_keys_nodup targets) u
    · intro hS
      have hS2 : (splitResults res).1.map Prod.fst = [] := hS
      simp only [subscribeTargeted, hcoreEq, hS2]
      simp
    · intro hS
      have hS2 : (splitResults res).1.map Prod.fst ≠ [] := hS
      simp only [subscribeTargeted, hcoreEq]
      rw [isEmpty_false_of_ne_nil _ hS2]
      rfl
  · -- sync_targeted
    rintro targets ⟨hne, hrne, hall⟩
    have htne : targets ≠ [] := fun h => hne (by rw [h]; rfl)
    have hmne : collectTargets targets ≠ [] :=
      fun h => htne ((collectTargets_eq_nil targets).mp h)
    have hkall : ∀ u ∈ keysOf (collectTargets targets),
        containsA st.relays u = true :=
      fun u hu => hall u ((collectTargets_keys_mem targets u).mp hu)
    have hset : (keysOf (collectTargets targets)).all
        (fun u => containsA st.relays u) = true :=
      List.all_eq_true.mpr hkall
    rcases fanLoop_ok st.relays (fun r => r.syncR)
      (keysOf (collectTargets targets)) hkall with ⟨res, hfan, hmap⟩
    have hcoreEq : syncTargetedCore st targets =
        ⟨Except.ok ⟨(splitResults res).1.foldl
            (fun acc p => Reconciliation.merge acc p.2) ⟨[], []⟩,
          (splitResults res).1.map Prod.fst, (splitResults res).2⟩,
          (keysOf (collectTargets targets)).map Action.dispatch⟩ := by
      simp only [syncTargetedCore]
      rw [if_neg (by rw [isEmpty_false_of_ne_nil _ hmne]; simp),
          if_neg (by rw [isEmpty_false_of_ne_nil _ hrne]; simp),
          if_neg (by rw [hset]; simp)]
      simp only [hfan]
    unfold FanCovers
    refine ⟨⟨(splitResults res).1.foldl
        (fun acc p => Reconciliation.merge acc p.2) ⟨[], []⟩,
      (splitResults res).1.map Prod.fst, (splitResults res).2⟩,
      by rw [hcoreEq], ?_, ?_, ?_, ?_⟩
    · intro u
      show u ∈ keysOf (collectTargets targets) ↔
        _ ∨ u ∈ (splitResults res).2.map Prod.fst
      rw [← hmap]
      exact (splitResults_mem res u).symm
    · intro u
      exact splitResults_disjoint res
        (by rw [hmap]; exact collectTargets_keys_nodup targets) u
    · intro hS
      have hS2 : (splitResults res).1.map Prod.fst = [] := hS
      simp only [syncTargeted, hcoreEq, hS2]
      simp
    · intro hS
      have hS2 : (splitResults res).1.map Prod.fst ≠ [] := hS
      simp only [syncTargeted, hcoreEq]
      rw [isEmpty_false_of_ne_nil _ hS2]
      rfl

theorem fanout_partition_witness :
    FanPre samplePool ["wss://a"] ∧
    FanCovers (sendEventToCore samplePool dbOk ["wss://a"] ⟨1, "e"⟩)
      (sendEventTo samplePool dbOk ["wss://a"] ⟨1, "e"⟩)
      (["wss://a"] : List RelayUrl).dedup PoolError.failed :=
  ⟨by decide,
   (fanout_partition samplePool dbOk).2.1 ["wss://a"] ⟨1, "e"⟩
     (by decide) rfl⟩

/- ### Fan-out preconditions (C2) -/

/-- C2: every fan-out checks its preconditions in order — empty URL set
gives `NoRelaysSpecified`, then empty registry gives `NoRelays`, then any
URL absent from the registry gives `RelayNotFound` — and in each of these
error cases the side-effect trace is empty: no database save and no
per-relay dispatch happens (all-or-nothing). -/
theorem fanout_preconditions (st : PoolState) (db : Event → Except String Unit) :
    ((∀ msgs, batchMsgTo st db [] msgs =
        ⟨Except.error PoolError.noRelaysSpecified, []⟩) ∧
     (∀ e, sendEventTo st db [] e =
        ⟨Except.error PoolError.noRelaysSpecified, []⟩) ∧
     (∀ sid, subscribeTargeted st sid [] =
        ⟨Except.error PoolError.noRelaysSpecified, []⟩) ∧
     (syncTargeted st [] = ⟨Except.error PoolError.noRelaysSpecified, []⟩)) ∧
    (st.relays = [] →
     (∀ urls msgs, urls ≠ [] → batchMsgTo st db urls msgs =
        ⟨Except.error PoolError.noRelays, []⟩) ∧
     (∀ urls e, urls ≠ [] → sendEventTo st db urls e =
        ⟨Except.error PoolError.noRelays, []⟩) ∧
     (∀ sid targets, targets ≠ [] → subscribeTargeted st sid targets =
        ⟨Except.error PoolError.noRelays, []⟩) ∧
     (∀ targets, targets ≠ [] → syncTargeted st targets =
        ⟨Except.error PoolError.noRelays, []⟩)) ∧
    (st.relays ≠ [] →
     (∀ urls msgs u, u ∈ urls → containsA st.relays u = false →
        batchMsgTo st db urls msgs =
          ⟨Except.error PoolError.relayNotFound, []⟩) ∧
     (∀ urls e u, u ∈ urls → containsA st.relays u = false →
        sendEventTo st db urls e =
          ⟨Except.error PoolError.relayNotFound, []⟩) ∧
     (∀ sid targets u, u ∈ targets.map Prod.fst →
        containsA st.relays u = false →
        subscribeTargeted st sid targets =
          ⟨Except.error PoolError.relayNotFound, []⟩) ∧
     (∀ targets u, u ∈ targets.map Prod.fst →
        containsA st.relays u = false →
        syncTargeted st targets =
          ⟨Except.error PoolError.relayNotFound, []⟩)) := by
  refine ⟨⟨?_, ?_, ?_, ?_⟩, ?_, ?_⟩
  · intro msgs
    rfl
  · intro e
    rfl
  · intro sid
    rfl
  · rfl
  · intro h
    refine ⟨?_, ?_, ?_, ?_⟩
    · intro urls msgs hu
      have hdne : urls.dedup ≠ [] := fun hd => hu ((List.dedup_eq_nil urls).mp hd)
      have hcoreEq : batchMsgToCore st db urls msgs =
          ⟨Except.error PoolError.noRelays, []⟩ := by
        simp only [batchMsgToCore]
        rw [if_neg (by rw [isEmpty_false_of_ne_nil _ hdne]; simp), h]
        simp
      simp [batchMsgTo, hcoreEq]
    · intro urls e hu
      have hdne : urls.dedup ≠ [] := fun hd => hu ((List.dedup_eq_nil urls).mp hd)
      have hcoreEq : sendEventToCore st db urls e =
          ⟨Except.error PoolError.noRelays, []⟩ := by
        simp only [sendEventToCore]
        rw [if_neg (by rw [isEmpty_false_of_ne_nil _ hdne]; simp), h]
        simp
      simp [sendEventTo, hcoreEq]
    · intro sid targets ht
      have hmne : collectTargets targets ≠ [] :=
        fun hd => ht ((collectTargets_eq_nil targets).mp hd)
      have hcoreEq : subscribeTargetedCore st sid targets =
          ⟨Except.error PoolError.noRelays, []⟩ := by
        simp only [subscribeTargetedCore]
        rw [if_neg (by rw [isEmpty_false_of_ne_nil _ hmne]; simp), h]
        simp
      simp [subscribeTargeted, hcoreEq]
    · intro targets ht
      have hmne : collectTargets targets ≠ [] :=
        fun hd => ht ((collectTargets_eq_nil targets).mp hd)
      have hcoreEq : syncTargetedCore st targets =
          ⟨Except.error PoolError.noRelays, []⟩ := by
        simp only [syncTargetedCore]
        rw [if_neg (by rw [isEmpty_false_of_ne_nil _ hmne]; simp), h]
        simp
      simp [syncTargeted, hcoreEq]
  · intro hrne
    refine ⟨?_, ?_, ?_, ?_⟩
    · intro urls msgs u hu hcu
      have hdne : urls.dedup ≠ [] :=
        fun hd => (List.ne_nil_of_mem hu) ((List.dedup_eq_nil urls).mp hd)
      have hallf : (urls.dedup.all fun x => containsA st.relays x) = false := by
        apply Bool.eq_false_iff.mpr
        intro htrue
        have hx := List.all_eq_true.mp htrue u (List.mem_dedup.mpr hu)
        rw [hcu] at hx
        cases hx
      have hcoreEq : batchMsgToCore st db urls msgs =
          ⟨Except.error PoolError.relayNotFound, []⟩ := by
        simp only [batchMsgToCore]
        rw [if_neg (by rw [isEmpty_false_of_ne_nil _ hdne]; simp),
            if_neg (by rw [isEmpty_false_of_ne_nil _ hrne]; simp),
            if_pos (by rw [hallf]; rfl)]
      simp [batchMsgTo, hcoreEq]
    · intro urls e u hu hcu
      have hdne : urls.dedup ≠ [] :=
        fun hd => (List.ne_nil_of_mem hu) ((List.dedup_eq_nil urls).mp hd)
      have hallf : (urls.dedup.all fun x => containsA st.relays x) = false := by
        apply Bool.eq_false_iff.mpr
        intro htrue
        have hx := List.all_eq_true.mp htrue u (List.mem_dedup.mpr hu)
        rw [hcu] at hx
        cases hx
      have hcoreEq : sendEventToCore st db urls e =
          ⟨Except.error PoolError.relayNotFound, []⟩ := by
        simp only [sendEventToCore]
        rw [if_neg (by rw [isEmpty_false_of_ne_nil _ hdne]; simp),
            if_neg (by rw [isEmpty_false_of_ne_nil _ hrne]; simp),
            if_pos (by rw [hallf]; rfl)]
      simp [sendEventTo, hcoreEq]
    · intro sid targets u hu hcu
      have hmne : collectTargets targets ≠ [] :=
        fun hd => (List.ne_nil_of_mem hu)
          (by rw [(collectTargets_eq_nil targets).mp hd]; rfl)
      have hallf : ((keysOf (collectTargets targets)).all
          fun x => containsA st.relays x) = false := by
        apply Bool.eq_false_iff.mpr
        intro htrue
        have hx := List.all_eq_true.mp htrue u
          ((collectTargets_keys_mem targets u).mpr hu)
        rw [hcu] at hx
        cases hx
      have hcoreEq : subscribeTargetedCore st sid targets =
          ⟨Except.error PoolError.relayNotFound, []⟩ := by
        simp only [subscribeTargetedCore]
        rw [if_neg (by rw [isEmpty_false_of_ne_nil _ hmne]; simp),
            if_neg (by rw [isEmpty_false_of_ne_nil _ hrne]; simp),
            if_pos (by rw [hallf]; rfl)]
      simp [subscribeTargeted, hcoreEq]
    · intro targets u hu hcu
      have hmne : collectTargets targets ≠ [] :=
        fun hd => (List.ne_nil_of_mem hu)
          (by rw [(collectTargets_eq_nil targets).mp hd]; rfl)
      have hallf : ((keysOf (collectTargets targets)).all
          fun x => containsA st.relays x) = false := by
        apply Bool.eq_false_iff.mpr
        intro htrue
        have hx := List.all_eq_true.mp htrue u
          ((collectTargets_keys_mem targets u).mpr hu)
        rw [hcu] at hx
        cases hx
      have hcoreEq : syncTargetedCore st targets =
          ⟨Except.error PoolError.relayNotFound, []⟩ := by
        simp only [syncTargetedCore]
        rw [if_neg (by rw [isEmpty_false_of_ne_nil _ hmne]; simp),
            if_neg (by rw [isEmpty_false_of_ne_nil _ hrne]; simp),
            if_pos (by rw [hallf]; rfl)]
      simp [syncTargeted, hcoreEq]

theorem fanout_preconditions_witness :
    samplePool.relays ≠ [] ∧
    sendEventTo samplePool dbOk ["wss://x"] ⟨1, "e"⟩ =
      ⟨Except.error PoolError.relayNotFound, []⟩ :=
  ⟨by decide,
   ((fanout_preconditions samplePool dbOk).2.2 (by decide)).2.1
     ["wss://x"] ⟨1, "e"⟩ "wss://x" (by decide) (by decide)⟩

/- ### send_event_to persists exactly once, before dispatch (C3) -/

/-- C3: under the fan-out preconditions, `send_event_to` calls
`save_event` exactly once and before any per-relay dispatch: on a database
error the whole call aborts with `Store` and the trace holds only the save
(no dispatch); on a database success the trace is the single save followed
by one dispatch per deduplicated URL, regardless of the per-relay results
(in particular also when every relay fails and the call returns `Failed`). -/
theorem send_event_saves_once (st : PoolState) (db : Event → Except String Unit)
    (urls : List RelayUrl) (e : Event) (hpre : FanPre st urls) :
    (∀ s, db e = Except.error s →
      sendEventTo st db urls e =
        ⟨Except.error (PoolError.store s), [Action.saveEvent e]⟩) ∧
    (db e = Except.ok () →
      (sendEventTo st db urls e).trace =
        Action.saveEvent e :: urls.dedup.map Action.dispatch) := by
  rcases hpre with ⟨hne, hrne, hall⟩
  have hdne : urls.dedup ≠ [] := fun hd => hne ((List.dedup_eq_nil urls).mp hd)
  have hset : urls.dedup.all (fun u => containsA st.relays u) = true :=
    List.all_eq_true.mpr (fun u hu => hall u (List.mem_dedup.mp hu))
  constructor
  · intro s hdb
    have hcoreEq : sendEventToCore st db urls e =
        ⟨Except.error (PoolError.store s), [Action.saveEvent e]⟩ := by
      simp only [sendEventToCore]
      rw [if_neg (by rw [isEmpty_false_of_ne_nil _ hdne]; simp),
          if_neg (by rw [isEmpty_false_of_ne_nil _ hrne]; simp),
          if_neg (by rw [hset]; simp)]
      simp only [hdb]
    simp [sendEventTo, hcoreEq]
  · intro hdb
    rcases fanLoop_ok st.relays (fun r => r.sendEventR) urls.dedup
      (fun u hu => hall u (List.mem_dedup.mp hu)) with ⟨res, hfan, hmap⟩
    have hcoreEq : sendEventToCore st db urls e =
        ⟨Except.ok ⟨e.id, (splitResults res).1.map Prod.fst, (splitResults res).2⟩,
          Action.saveEvent e :: urls.dedup.map Action.dispatch⟩ := by
      simp only [sendEventToCore]
      rw [if_neg (by rw [isEmpty_false_of_ne_nil _ hdne]; simp),
          if_neg (by rw [isEmpty_false_of_ne_nil _ hrne]; simp),
          if_neg (by rw [hset]; simp)]
      simp only [hdb, hfan]
    simp only [sendEventTo, hcoreEq]
    cases hemp : ((splitResults res).1.map Prod.fst).isEmpty <;> simp [hemp]

theorem send_event_saves_once_witness :
    FanPre samplePool ["wss://a"] ∧
    sendEventTo samplePool dbFail ["wss://a"] ⟨1, "x"⟩ =
      ⟨Except.error (PoolError.store "db full"), [Action.saveEvent ⟨1, "x"⟩]⟩ :=
  ⟨by decide,
   (send_event_saves_once samplePool dbFail ["wss://a"] ⟨1, "x"⟩
     (by decide)).1 "db full" rfl⟩

end NostrPool
